import Mathlib

/-!
Verification development for the bugbot agentic code-fix engine.

The definitions below are a shallow embedding of the Python sources:
* `src/services/code_fix_service.py` — the workspace sandbox tools
  (`read_file`, `write_file`, `list_directory`), the linter gate
  (`_run_linter`), and the orchestration loop (`generate_fix`);
* `src/services/github_service.py` — the atomic multi-file commit
  (`commit_files_atomic`) and CI polling (`poll_ci_status`).

Filesystem paths are modelled as component lists; `Path.resolve` becomes
normalisation of `..`/`.` components against an absolute root location,
and `relative_to` becomes a prefix test.  The filesystem is an
association list from absolute locations to nodes.  External effects
(network, subprocesses, the model) enter as explicit oracle parameters.
-/

namespace BugBot

/-- One component of a path argument: a plain name, `..`, or `.`. -/
inductive Comp where
  | name (s : String)
  | up
  | cur
deriving DecidableEq

/-- A path argument as passed to a sandbox tool: possibly absolute,
with its components.  Mirrors the `path: str` tool arguments. -/
structure PathArg where
  absolute : Bool
  comps : List Comp
deriving DecidableEq

/-- An absolute filesystem location: names from the filesystem root. -/
abbrev Loc := List String

/-- One step of path normalisation, as `Path.resolve` performs it:
names descend, `..` ascends (staying at the filesystem root when
already there), `.` is a no-op. -/
def stepComp (stack : Loc) : Comp → Loc
  | .name s => stack ++ [s]
  | .up => stack.dropLast
  | .cur => stack

/-- Resolution `(clone_dir / path).resolve()`: an absolute path argument replaces
the root, a relative one is appended to it, then components are
normalised left to right. -/
def resolveLoc (root : Loc) (p : PathArg) : Loc :=
  p.comps.foldl stepComp (if p.absolute then [] else root)

/-- Whether `root` is the location itself or an ancestor of `loc`
(`full_path.relative_to(clone_dir.resolve())` succeeds). -/
def isUnder : Loc → Loc → Bool
  | [], _ => true
  | _ :: _, [] => false
  | a :: rs, b :: ls => a == b && isUnder rs ls

/-- Resolve a path argument against the sandbox root; `none` when the
resolved location escapes the root (the `relative_to` check fails). -/
def resolveUnder (root : Loc) (p : PathArg) : Option Loc :=
  let loc := resolveLoc root p
  if isUnder root loc then some loc else none

/-- A filesystem node: a regular file with content, or a directory. -/
inductive FNode where
  | file (content : String)
  | dir
deriving DecidableEq

/-- First-match association lookup for filesystem entries. -/
def assocLoc : List (Loc × FNode) → Loc → Option FNode
  | [], _ => none
  | (k, v) :: rest, l => if k = l then some v else assocLoc rest l

/-- The sandbox's view of the filesystem. -/
structure FS where
  entries : List (Loc × FNode)
deriving DecidableEq

def FS.lookup (fs : FS) (l : Loc) : Option FNode :=
  assocLoc fs.entries l

/-- All initial segments of a location (the location itself included). -/
def initSegs : Loc → List Loc
  | [] => [[]]
  | a :: rest => [] :: (initSegs rest).map (a :: ·)

/-- Model of `full_path.parent.mkdir(parents=True, exist_ok=True)`: create any
missing ancestor directories of `l`. -/
def FS.mkdirAll (fs : FS) (l : Loc) : FS :=
  ⟨((initSegs l).filter (fun d => (fs.lookup d).isNone)).map (fun d => (d, FNode.dir))
    ++ fs.entries⟩

/-- Model of `full_path.write_text(content)`: set the file at `l`. -/
def FS.setFile (fs : FS) (l : Loc) (c : String) : FS :=
  ⟨(l, FNode.file c) :: fs.entries⟩

/-- Observable filesystem effects of a tool operation. -/
inductive Effect where
  | readF (l : Loc)
  | wroteF (l : Loc) (content : String)
  | madeDirs (l : Loc)
  | listed (l : Loc)
deriving DecidableEq

def Comp.render : Comp → String
  | .name s => s
  | .up => ".."
  | .cur => "."

/-- The textual form of a path argument, used in tool error messages. -/
def renderPath (p : PathArg) : String :=
  (if p.absolute then "/" else "") ++ String.intercalate "/" (p.comps.map Comp.render)

def budgetMsg (maxFiles : Nat) : String :=
  "ERROR: File read limit (" ++ toString maxFiles ++ ") reached. Work with files already read."

def traversalMsg (p : PathArg) : String :=
  "ERROR: Path traversal not allowed: " ++ renderPath p

def notFoundMsg (p : PathArg) : String :=
  "ERROR: File not found: " ++ renderPath p

def notAFileMsg (p : PathArg) : String :=
  "ERROR: Not a file: " ++ renderPath p

def notADirMsg (p : PathArg) : String :=
  "ERROR: Not a directory: " ++ renderPath p

/-- Truncation of large file contents at 500 lines, with the marker
the source appends. -/
def truncateContent (content : String) : String :=
  let lines := content.splitOn "\n"
  if 500 < lines.length then
    String.intercalate "\n" (lines.take 500)
      ++ "\n\n... truncated (" ++ toString lines.length ++ " total lines)"
  else content

/-- Outcome of a `read_file` tool call: the string returned to the
agent, the read counter afterwards, and the filesystem effects. -/
structure ReadOut where
  result : String
  count : Nat
  effects : List Effect
deriving DecidableEq

/-- The `read_file` tool.  Faithful to the source order: the read-budget
check comes first, then path resolution and the traversal check, then
existence and is-file checks; only a successful content read increments
the counter. -/
def read_file (root : Loc) (maxFiles : Nat) (fs : FS) (count : Nat) (p : PathArg) : ReadOut :=
  if maxFiles ≤ count then
    { result := budgetMsg maxFiles, count := count, effects := [] }
  else
    match resolveUnder root p with
    | none => { result := traversalMsg p, count := count, effects := [] }
    | some loc =>
      match fs.lookup loc with
      | none => { result := notFoundMsg p, count := count, effects := [] }
      | some .dir => { result := notAFileMsg p, count := count, effects := [] }
      | some (.file c) =>
        { result := truncateContent c, count := count + 1, effects := [.readF loc] }

/-- Outcome of a `write_file` tool call: the string returned to the
agent, the filesystem afterwards, the set of changed paths afterwards,
and the filesystem effects. -/
structure WriteOut where
  result : String
  fs : FS
  changed : List PathArg
  effects : List Effect
deriving DecidableEq

/-- Model of `changed_files.add(path)`: set insertion into the changed-paths set. -/
def insertChanged (p : PathArg) (ch : List PathArg) : List PathArg :=
  if p ∈ ch then ch else p :: ch

/-- The `write_file` tool: traversal check first; on success, create
missing parent directories, write the full content, and record the
path in the changed set. -/
def write_file (root : Loc) (fs : FS) (ch : List PathArg) (p : PathArg) (content : String) :
    WriteOut :=
  match resolveUnder root p with
  | none => { result := traversalMsg p, fs := fs, changed := ch, effects := [] }
  | some loc =>
    { result := "Written " ++ toString content.length ++ " bytes to " ++ renderPath p,
      fs := (fs.mkdirAll loc.dropLast).setFile loc content,
      changed := insertChanged p ch,
      effects := [.madeDirs loc.dropLast, .wroteF loc content] }

/-- Deduplicate locations (shadowed filesystem entries appear once). -/
def dedupLocs : List Loc → List Loc
  | [] => []
  | l :: rest => if l ∈ rest then dedupLocs rest else l :: dedupLocs rest

/-- Path rendered relative to the sandbox root (`entry.relative_to(clone_dir)`). -/
def renderRel (root : Loc) (l : Loc) : String :=
  String.intercalate "/" (l.drop root.length)

def insertLocBy (root : Loc) (x : Loc) : List Loc → List Loc
  | [] => [x]
  | y :: ys =>
    if renderRel root x < renderRel root y then x :: y :: ys
    else y :: insertLocBy root x ys

/-- Model of `sorted(target.iterdir())`: sort child locations by their rendered
path. -/
def sortLocsBy (root : Loc) : List Loc → List Loc
  | [] => []
  | x :: xs => insertLocBy root x (sortLocsBy root xs)

/-- The `list_directory` tool: traversal check first, then the
is-directory check, then a sorted listing capped at 100 entries with a
`d `/`f ` kind marker. -/
def list_directory (root : Loc) (fs : FS) (p : PathArg) : String × List Effect :=
  match resolveUnder root p with
  | none => (traversalMsg p, [])
  | some loc =>
    match fs.lookup loc with
    | some .dir =>
      let kids := dedupLocs ((fs.entries.map Prod.fst).filter
        (fun l => decide (l.length = loc.length + 1) && isUnder loc l))
      let lines := ((sortLocsBy root kids).take 100).map (fun k =>
        (match fs.lookup k with
          | some .dir => "d "
          | _ => "f ") ++ renderRel root k)
      (if lines.isEmpty then "(empty directory)" else String.intercalate "\n" lines,
        [.listed loc])
    | _ => (notADirMsg p, [])

/-! ## Git Data API model (`github_service.commit_files_atomic`)

Object ids (shas) are modelled as naturals drawn from a fresh-id
counter; stores are first-match association lists, so a newly created
object is immediately visible under its id. -/

structure GitCommit where
  tree : Nat
  parents : List Nat
  message : String
deriving DecidableEq

structure GitTree where
  entries : List (String × Nat)
deriving DecidableEq

/-- The remote repository state: blob, tree and commit stores, the
refs, and the fresh-id counter. -/
structure GitRepo where
  blobs : List (Nat × String)
  trees : List (Nat × GitTree)
  commits : List (Nat × GitCommit)
  refs : List (String × Nat)
  next : Nat
deriving DecidableEq

def assocNat {α : Type} : List (Nat × α) → Nat → Option α
  | [], _ => none
  | (k, v) :: rest, n => if k = n then some v else assocNat rest n

def assocStr {α : Type} : List (String × α) → String → Option α
  | [], _ => none
  | (k, v) :: rest, s => if k = s then some v else assocStr rest s

/-- The API call `git.async_create_blob`: store a content object under a fresh id. -/
def create_blob (g : GitRepo) (content : String) : GitRepo × Nat :=
  ({ g with blobs := (g.next, content) :: g.blobs, next := g.next + 1 }, g.next)

/-- The API call `git.async_get_ref`: the branch head sha. -/
def get_ref (g : GitRepo) (branch : String) : Option Nat :=
  assocStr g.refs branch

/-- The API call `git.async_get_commit`. -/
def get_commit (g : GitRepo) (sha : Nat) : Option GitCommit :=
  assocNat g.commits sha

def get_tree (g : GitRepo) (sha : Nat) : Option GitTree :=
  assocNat g.trees sha

/-- GitHub's `create_tree` with `base_tree` semantics at path
granularity: the item entries override or extend the base entries;
untouched base entries are inherited by reference. -/
def mergeEntries (base items : List (String × Nat)) : List (String × Nat) :=
  items ++ base.filter (fun e => (assocStr items e.1).isNone)

/-- The API call `git.async_create_tree` with a base tree. -/
def create_tree (g : GitRepo) (items : List (String × Nat)) (baseTree : Nat) :
    Option (GitRepo × Nat) :=
  match get_tree g baseTree with
  | none => none
  | some t =>
    let g2 : GitRepo :=
      { g with
        trees := (g.next, ⟨mergeEntries t.entries items⟩) :: g.trees,
        next := g.next + 1 }
    some (g2, g.next)

/-- The API call `git.async_create_commit`. -/
def create_commit (g : GitRepo) (tree : Nat) (message : String) (parents : List Nat) :
    GitRepo × Nat :=
  ({ g with commits := (g.next, ⟨tree, parents, message⟩) :: g.commits, next := g.next + 1 },
    g.next)

/-- The API call `git.async_update_ref`: point the branch at a commit. -/
def update_ref (g : GitRepo) (branch : String) (sha : Nat) : GitRepo :=
  { g with refs := (branch, sha) :: g.refs }

/-- Step 1 of `commit_files_atomic`: one blob per changed file.
Returns the resulting state, the tree items (path paired with blob
sha), and the trace of states after each blob creation. -/
def createBlobs (g : GitRepo) : List (String × String) → GitRepo × List (String × Nat) × List GitRepo
  | [] => (g, [], [])
  | (p, c) :: rest =>
    let pr := create_blob g c
    let r := createBlobs pr.1 rest
    (r.1, (p, pr.2) :: r.2.1, pr.1 :: r.2.2)

/-- The commit sequence of `commit_files_atomic`: blobs, then head ref, head commit, base
tree, new tree layered over it, new commit, and finally the ref
update.  Besides the final state and new commit sha it returns the
trace of states after each mutating API call, so that ref visibility
at every intermediate point can be stated. -/
def commit_files_atomic (g : GitRepo) (branch : String) (files : List (String × String))
    (message : String) : Option (GitRepo × Nat × List GitRepo) :=
  match get_ref (createBlobs g files).1 branch with
  | none => none
  | some headSha =>
    match get_commit (createBlobs g files).1 headSha with
    | none => none
    | some headCommit =>
      match create_tree (createBlobs g files).1 (createBlobs g files).2.1 headCommit.tree with
      | none => none
      | some (g2, treeSha) =>
        let cc := create_commit g2 treeSha message [headSha]
        some (update_ref cc.1 branch cc.2, cc.2,
          (createBlobs g files).2.2 ++ [g2, cc.1, update_ref cc.1 branch cc.2])

/-- A concrete remote repository for the C2 witness: one commit `1`
whose tree `0` holds `old.txt`, branch `main` at `1`. -/
def gitRepoEx : GitRepo :=
  ⟨[], [(0, ⟨[("old.txt", 5)]⟩)], [(1, ⟨0, [], "init"⟩)], [("main", 1)], 2⟩

/-! ## CI polling (`github_service.poll_ci_status`)

The network is abstracted as a stream of poll responses: `polls i` is
the check-run list returned by the `i`-th call to
`checks.async_list_for_ref`.  The `while elapsed < timeout` loop is a
fuel recursion; with a positive poll interval the fuel `timeout + 1`
strictly exceeds the possible number of iterations, and the fuel-zero
fallback returns the same timeout result the loop's exit produces. -/

structure CheckRun where
  name : String
  status : String
  conclusion : String
deriving DecidableEq

inductive CIStatus where
  | passed
  | failed
  | no_ci
  | timeout
deriving DecidableEq

structure CIResult where
  status : CIStatus
  details : String
deriving DecidableEq

def goodConclusion (c : String) : Bool :=
  c == "success" || c == "neutral" || c == "skipped"

/-- The check runs whose conclusion is not success/neutral/skipped. -/
def ciFailures (runs : List CheckRun) : List CheckRun :=
  runs.filter (fun cr => !goodConclusion cr.conclusion)

/-- The aggregation applied once all check runs are complete. -/
def aggregateRuns (runs : List CheckRun) : CIResult :=
  if (ciFailures runs).isEmpty then
    { status := .passed, details := "All " ++ toString runs.length ++ " checks passed" }
  else
    { status := .failed,
      details := String.intercalate "\n"
        ((ciFailures runs).map (fun cr => "- " ++ cr.name ++ ": " ++ cr.conclusion)) }

def allComplete (runs : List CheckRun) : Bool :=
  runs.all (fun cr => cr.status == "completed")

def timeoutResult (timeout : Nat) : CIResult :=
  { status := .timeout, details := "CI did not complete within " ++ toString timeout ++ "s" }

def noCIResult : CIResult :=
  { status := .no_ci, details := "No CI pipeline detected" }

/-- The polling loop body: `elapsed`/`firstPoll` as in the source,
`idx` counts the polls issued so far. -/
def pollAux (polls : Nat → List CheckRun) (interval timeout : Nat) :
    Nat → Nat → Nat → Bool → CIResult
  | 0, _, _, _ => timeoutResult timeout
  | fuel + 1, elapsed, idx, firstPoll =>
    if timeout ≤ elapsed then timeoutResult timeout
    else if (polls idx).length = 0 then
      if firstPoll then pollAux polls interval timeout fuel (elapsed + interval) (idx + 1) false
      else noCIResult
    else if allComplete (polls idx) then aggregateRuns (polls idx)
    else pollAux polls interval timeout fuel (elapsed + interval) (idx + 1) false

def poll_ci_status (polls : Nat → List CheckRun) (timeout interval : Nat) : CIResult :=
  pollAux polls interval timeout (timeout + 1) 0 0 true

/-- Poll stream for the C6 witness: the first poll sees zero check
runs, every later poll sees one completed successful run. -/
def pollsEx : Nat → List CheckRun := fun i =>
  if i = 0 then [] else [⟨"build", "completed", "success"⟩]

/-! ## Quality gates (`code_fix_service`) -/

structure LintResult where
  linter : Option String
  output : String
  passed : Bool
  skipped : Bool
deriving DecidableEq

structure ReviewResult where
  passed : Bool
  issues : List String
  summary : String
deriving DecidableEq

/-- Outcome of the linter subprocess: normal completion with an exit
code and captured output, a timeout, or any other exception. -/
inductive ProcOutcome where
  | finished (returncode : Int) (stdout stderr : String)
  | timedOut
  | excFailed (msg : String)
deriving DecidableEq

/-- The gate `_run_linter`: `shutil.which` miss → skipped pass; completed
process → pass iff exit code 0; timeout → fail; any other exception →
skipped pass.  `which` is the host's binary-availability oracle. -/
def run_linter (which : String → Bool) (proc : ProcOutcome) (name : String)
    (cmd : List String) : LintResult :=
  if !(which (cmd.headD "")) then
    { linter := some name, output := "Linter " ++ name ++ " not installed on host",
      passed := true, skipped := true }
  else
    match proc with
    | .finished rc out err =>
      { linter := some name, output := out ++ err, passed := rc == 0, skipped := false }
    | .timedOut =>
      { linter := some name, output := name ++ " timed out after 60 seconds",
        passed := false, skipped := false }
    | .excFailed msg =>
      { linter := some name, output := "Failed to run " ++ name ++ ": " ++ msg,
        passed := true, skipped := true }

/-! ## The orchestration loop (`generate_fix`)

The external world of one session is scripted: each round carries its
generation outcome (the write tool calls it performed and whether the
runner raised a tool-validation error), its lint and self-review gate
results, the outcome of the commit issued at the CI gate, and the CI
poll result.  The loop itself — state threading, gate order,
short-circuits, feedback construction, the exhaustion path and the
finalization commit — is translated from the source. -/

/-- The generation outcome of one round: a tool-call validation error
(the writes performed before the malformed call are still applied), or
normal completion with the round's writes and token usage. -/
inductive GenOutcome where
  | toolError (writes : List (PathArg × String)) (detail : String)
  | ok (writes : List (PathArg × String)) (usage : Nat × Nat)
deriving DecidableEq

/-- The feedback tagged union fed into the next round's prompt. -/
inductive Feedback where
  | lint (output : String)
  | selfReview (issues : List String)
  | toolError (output : String)
  | ci (details : String)
deriving DecidableEq

/-- One round's entry in the process log. -/
structure RoundLog where
  round : Nat
  files_changed : List PathArg
  tokens : Nat × Nat
  error : Option String
  lintRes : Option LintResult
  lintSkippedNoChanges : Bool
  selfReview : Option ReviewResult
  ciRes : Option CIResult
deriving DecidableEq

def baseLog (n : Nat) (ch : List PathArg) (tk : Nat × Nat) : RoundLog :=
  ⟨n, ch, tk, none, none, false, none, none⟩

deriving instance DecidableEq for Except

/-- One round's scripted external outcomes. -/
structure RoundScript where
  gen : GenOutcome
  lint : LintResult
  review : ReviewResult
  commitRes : Except String Nat
  ci : CIResult
deriving DecidableEq

/-- The loop's mutable state across rounds. -/
structure LoopState where
  fs : FS
  changed : List PathArg
  best : List (PathArg × String)
  feedback : Option Feedback
  commitSha : Option Nat
  committedThisRound : Bool
  validationPassed : Bool
  logs : List RoundLog
  commitCalls : List (List (PathArg × String))
  totalTokens : Nat × Nat
deriving DecidableEq

/-- Apply a round's write tool calls (`write_file`) in order to the
filesystem and the changed-paths set. -/
def applyWrites (root : Loc) : FS × List PathArg → List (PathArg × String) → FS × List PathArg
  | st, [] => st
  | st, w :: ws =>
    applyWrites root
      ((write_file root st.1 st.2 w.1 w.2).fs, (write_file root st.1 st.2 w.1 w.2).changed) ws

/-- Collection step: re-read every path ever named by a write call;
paths no longer on disk are simply absent from the ChangeSet. -/
def collectChanges (root : Loc) (fs : FS) (changed : List PathArg) :
    List (PathArg × String) :=
  changed.filterMap (fun p =>
    match fs.lookup (resolveLoc root p) with
    | some (.file c) => some (p, c)
    | _ => none)

inductive StepRes where
  | next (st : LoopState)
  | done (st : LoopState)
  | raised (e : String)
deriving DecidableEq

def StepRes.state? : StepRes → Option LoopState
  | .next st => some st
  | .done st => some st
  | .raised _ => none

def StepRes.isDone : StepRes → Bool
  | .done _ => true
  | _ => false

def renderToolError (detail : String) : String :=
  "Tool call validation error: " ++ detail

/-- One iteration of the round loop of `generate_fix`: generation,
change collection, the lint / self-review gates, the commit plus CI
gate, with the source's short-circuit and feedback behaviour.
`.raised e` models an exception (from `commit_files_atomic`) escaping
to the outer handler. -/
def roundStep (root : Loc) (r : RoundScript) (n : Nat) (st0 : LoopState) : StepRes :=
  let st := { st0 with committedThisRound := false }
  match r.gen with
  | .toolError ws detail =>
    let fsch := applyWrites root (st.fs, st.changed) ws
    .next { st with
      fs := fsch.1, changed := fsch.2,
      logs := st.logs
        ++ [{ baseLog n fsch.2 (0, 0) with error := some (renderToolError detail) }],
      feedback := some (.toolError (renderToolError detail)) }
  | .ok ws usage =>
    let fsch := applyWrites root (st.fs, st.changed) ws
    let st1 : LoopState := { st with
      fs := fsch.1, changed := fsch.2,
      totalTokens := (st.totalTokens.1 + usage.1, st.totalTokens.2 + usage.2) }
    let current := collectChanges root fsch.1 fsch.2
    let st2 : LoopState := { st1 with best := current }
    if current.isEmpty then
      .next { st2 with
        logs := st2.logs ++ [{ baseLog n fsch.2 usage with lintSkippedNoChanges := true }],
        feedback := none }
    else if r.lint.passed = false then
      .next { st2 with
        logs := st2.logs ++ [{ baseLog n fsch.2 usage with lintRes := some r.lint }],
        feedback := some (.lint r.lint.output) }
    else if r.review.passed = false then
      .next { st2 with
        logs := st2.logs ++ [{ baseLog n fsch.2 usage with
          lintRes := some r.lint, selfReview := some r.review }],
        feedback := some (.selfReview r.review.issues) }
    else
      match r.commitRes with
      | .error e => .raised e
      | .ok sha =>
        let st3 : LoopState := { st2 with
          commitSha := some sha, committedThisRound := true,
          commitCalls := st2.commitCalls ++ [current] }
        if r.ci.status = .failed then
          .next { st3 with
            logs := st3.logs ++ [{ baseLog n fsch.2 usage with
              lintRes := some r.lint, selfReview := some r.review, ciRes := some r.ci }],
            feedback := some (.ci r.ci.details) }
        else
          .done { st3 with
            validationPassed :=
              if r.ci.status = .passed ∨ r.ci.status = .no_ci then true else false,
            logs := st3.logs ++ [{ baseLog n fsch.2 usage with
              lintRes := some r.lint, selfReview := some r.review, ciRes := some r.ci }] }

/-- The `for round_num in range(1, max_rounds + 1)` loop.  Returns the
final state and the final `round_num`.  The source's loop-exhaustion
guard that might re-append the last round log is inert because every
iteration path appends exactly its own log, so it has no model. -/
def runRounds (root : Loc) : List RoundScript → Nat → LoopState → Except String (LoopState × Nat)
  | [], n, st => .ok (st, n)
  | r :: rs, n, st =>
    match roundStep root r (n + 1) st with
    | .next st' => runRounds root rs (n + 1) st'
    | .done st' => .ok (st', n + 1)
    | .raised e => .error e

/-- The scripted external world of a whole `generate_fix` session. -/
structure FixScript where
  token : Except String Unit
  clone : Except String Unit
  rounds : List RoundScript
  finalCommit : Except String Nat
deriving DecidableEq

/-- The dict returned by `generate_fix`. -/
structure FixResult where
  success : Bool
  changed_files : List (PathArg × String)
  rounds_taken : Nat
  validation_passed : Bool
  commit_sha : Option Nat
  error : Option String
  commitCalls : List (List (PathArg × String))
deriving DecidableEq

def initState (fs0 : FS) : LoopState :=
  ⟨fs0, [], [], none, none, false, false, [], [], (0, 0)⟩

/-- Body of `generate_fix` inside its try block: token fetch, clone, the round
loop, and the finalization commit (only when the best ChangeSet is
non-empty and the last round did not already commit at the CI gate).
`.error e` models an exception escaping to the handler. -/
def generateFixE (root : Loc) (fs0 : FS) (maxRounds : Nat) (s : FixScript) :
    Except String (LoopState × Nat) :=
  match s.token with
  | .error e => .error e
  | .ok _ =>
    match s.clone with
    | .error e => .error e
    | .ok _ =>
      match runRounds root (s.rounds.take maxRounds) 0 (initState fs0) with
      | .error e => .error e
      | .ok (st, n) =>
        if !st.best.isEmpty && !st.committedThisRound then
          match s.finalCommit with
          | .error e => .error e
          | .ok sha =>
            .ok ({ st with
              commitSha := some sha,
              commitCalls := st.commitCalls ++ [st.best] }, n)
        else .ok (st, n)

/-- Entry point `generate_fix` with its try/except wrapper: an escaping exception
becomes `success=False` with `error = str(exc)` unmodified; otherwise
`success=True` with the aggregate fields. -/
def generateFix (root : Loc) (fs0 : FS) (maxRounds : Nat) (s : FixScript) : FixResult :=
  match generateFixE root fs0 maxRounds s with
  | .ok (st, n) =>
    { success := true, changed_files := st.best, rounds_taken := n,
      validation_passed := st.validationPassed, commit_sha := st.commitSha,
      error := none, commitCalls := st.commitCalls }
  | .error e =>
    { success := false, changed_files := [], rounds_taken := 0,
      validation_passed := false, commit_sha := none, error := some e, commitCalls := [] }

def lintOkEx : LintResult := ⟨none, "", true, false⟩

def reviewOkEx : ReviewResult := ⟨true, [], ""⟩

def ciPassEx : CIResult := ⟨.passed, "All 1 checks passed"⟩

/-- A round whose generation completes but writes nothing. -/
def emptyRoundEx : RoundScript := ⟨.ok [] (0, 0), lintOkEx, reviewOkEx, .ok 7, ciPassEx⟩

/-- A session in which no round produces any usable change. -/
def noChangeScriptEx : FixScript :=
  ⟨.ok (), .ok (), [emptyRoundEx, emptyRoundEx, emptyRoundEx], .ok 9⟩

def sandboxPathEx : PathArg := ⟨false, [Comp.name "a.txt"]⟩

/-- A round that reaches the CI-gate commit, which raises. -/
def commitFailRoundEx : RoundScript :=
  ⟨.ok [(sandboxPathEx, "x")] (1, 2), lintOkEx, reviewOkEx, .error "API error 502", ciPassEx⟩

def commitFailScriptEx : FixScript := ⟨.ok (), .ok (), [commitFailRoundEx], .ok 9⟩

def reviewFailEx : ReviewResult := ⟨false, ["issue 1"], "needs work"⟩

def ciFailEx : CIResult := ⟨.failed, "- build: failure"⟩

/-- A round whose gates pass, whose commit succeeds with sha 11, and
whose CI poll fails. -/
def c5RoundEx : RoundScript :=
  ⟨.ok [(sandboxPathEx, "y")] (0, 0), lintOkEx, reviewOkEx, .ok 11, ciFailEx⟩

/-- Host oracle for the C8 witness: no binary is installed. -/
def whichNoneEx : String → Bool := fun _ => false

/-- A round whose lint gate is the absent-binary skipped pass and
whose self-review fails. -/
def c8RoundEx : RoundScript :=
  ⟨.ok [(sandboxPathEx, "z")] (0, 0),
    run_linter whichNoneEx (.finished 0 "" "") "ruff" ["ruff", "check", "."],
    reviewFailEx, .ok 11, ciPassEx⟩

def lintFailEx : LintResult := ⟨some "ruff", "E501 line too long", false, false⟩

def c4Round (v : String) : RoundScript :=
  ⟨.ok [(sandboxPathEx, v)] (0, 0), lintFailEx, reviewOkEx, .ok 5, ciPassEx⟩

def c4ScriptEx : FixScript :=
  ⟨.ok (), .ok (), [c4Round "v1", c4Round "v2", c4Round "v3"], .ok 42⟩

/-! ## C9: the changed-paths set and the ChangeSet -/

def writesOf : GenOutcome → List (PathArg × String)
  | .toolError ws _ => ws
  | .ok ws _ => ws

/-- All paths named by some write tool call of the given rounds. -/
def namedPaths (rounds : List RoundScript) : List PathArg :=
  rounds.flatMap (fun r => (writesOf r.gen).map Prod.fst)

/-- A round whose single write lands and whose gates pass. -/
def writeRoundEx : RoundScript :=
  ⟨.ok [(sandboxPathEx, "v1")] (0, 0), lintOkEx, reviewOkEx, .ok 3, ciPassEx⟩

def c9StEx : LoopState :=
  match runRounds ["r"] [writeRoundEx] 0 (initState ⟨[]⟩) with
  | .ok (st, _) => st
  | .error _ => initState ⟨[]⟩

/-- C1 — counterexample.  The claim asserts every traversal path yields
a path-traversal rejection for `read_file` too; but the read-budget
check precedes path validation, so with the counter at `max_files` a
traversal path gets the budget-refusal message instead. -/
theorem c1_traversal_counterexample :
    resolveUnder ["r"] ⟨false, [Comp.up]⟩ = none ∧
    (read_file ["r"] 1 ⟨[]⟩ 1 ⟨false, [Comp.up]⟩).result = budgetMsg 1 ∧
    (read_file ["r"] 1 ⟨[]⟩ 1 ⟨false, [Comp.up]⟩).result ≠ traversalMsg ⟨false, [Comp.up]⟩ := by
  refine ⟨rfl, rfl, ?_⟩
  decide

/-- C1 — amended.  For every path whose resolution escapes the sandbox
root: `write_file` and `list_directory` return the traversal rejection
with no filesystem effect; `read_file` does so as well while the read
budget is not exhausted, and returns the budget refusal (still with no
filesystem effect) once the counter has reached `max_files`. -/
theorem c1_traversal_rejected (root : Loc) (fs : FS) (ch : List PathArg) (p : PathArg)
    (maxFiles count : Nat) (content : String) (h : resolveUnder root p = none) :
    (count < maxFiles →
      read_file root maxFiles fs count p
        = { result := traversalMsg p, count := count, effects := [] }) ∧
    (maxFiles ≤ count →
      read_file root maxFiles fs count p
        = { result := budgetMsg maxFiles, count := count, effects := [] }) ∧
    write_file root fs ch p content
      = { result := traversalMsg p, fs := fs, changed := ch, effects := [] } ∧
    list_directory root fs p = (traversalMsg p, []) := by
  refine ⟨fun hlt => ?_, fun hle => ?_, ?_, ?_⟩
  · simp [read_file, Nat.not_le.mpr hlt, h]
  · simp [read_file, hle]
  · simp [write_file, h]
  · simp [list_directory, h]

theorem c1_traversal_rejected_witness :
    read_file ["r"] 1 ⟨[]⟩ 0 ⟨false, [Comp.up]⟩
      = { result := traversalMsg ⟨false, [Comp.up]⟩, count := 0, effects := [] } ∧
    write_file ["r"] ⟨[]⟩ [] ⟨false, [Comp.up]⟩ "x"
      = { result := traversalMsg ⟨false, [Comp.up]⟩, fs := ⟨[]⟩, changed := [], effects := [] } ∧
    list_directory ["r"] ⟨[]⟩ ⟨false, [Comp.up]⟩ = (traversalMsg ⟨false, [Comp.up]⟩, []) := by
  have h := c1_traversal_rejected ["r"] ⟨[]⟩ [] ⟨false, [Comp.up]⟩ 1 0 "x" (by decide)
  exact ⟨h.1 (by decide), h.2.2.1, h.2.2.2⟩

/-- C10.  The read counter increments exactly on a content-returning
read; every error return (budget, traversal, not found, not a file)
leaves the counter unchanged and touches no file; and because the
budget check precedes path validation, once the counter has reached
`max_files` every call — traversal paths included — returns the budget
refusal with no effect. -/
theorem c10_read_counter (root : Loc) (maxFiles : Nat) (fs : FS) (count : Nat) (p : PathArg) :
    (maxFiles ≤ count →
      read_file root maxFiles fs count p
        = { result := budgetMsg maxFiles, count := count, effects := [] }) ∧
    ((read_file root maxFiles fs count p).count = count + 1 ∨
      (read_file root maxFiles fs count p).count = count) ∧
    ((read_file root maxFiles fs count p).count = count + 1 →
      count < maxFiles ∧ ∃ loc c, resolveUnder root p = some loc ∧
        fs.lookup loc = some (FNode.file c) ∧
        (read_file root maxFiles fs count p).result = truncateContent c ∧
        (read_file root maxFiles fs count p).effects = [Effect.readF loc]) ∧
    ((read_file root maxFiles fs count p).count = count →
      (read_file root maxFiles fs count p).effects = []) := by
  by_cases hbc : maxFiles ≤ count
  · simp [read_file, hbc]
  · refine ⟨fun hle => absurd hle hbc, ?_⟩
    rcases hres : resolveUnder root p with _ | loc
    · refine ⟨Or.inr ?_, ?_, ?_⟩ <;> simp [read_file, hbc, hres]
    · rcases hnode : fs.lookup loc with _ | nd
      · refine ⟨Or.inr ?_, ?_, ?_⟩ <;> simp [read_file, hbc, hres, hnode]
      · cases nd with
        | dir => refine ⟨Or.inr ?_, ?_, ?_⟩ <;> simp [read_file, hbc, hres, hnode]
        | file c =>
          refine ⟨Or.inl ?_, fun _ => ?_, fun hcc => ?_⟩
          · simp [read_file, hbc, hres, hnode]
          · exact ⟨Nat.lt_of_not_le hbc, loc, c, rfl, hnode,
              by simp [read_file, hbc, hres, hnode], by simp [read_file, hbc, hres, hnode]⟩
          · exfalso
            simp [read_file, hbc, hres, hnode] at hcc

theorem c10_read_counter_witness :
    read_file ["r"] 1 ⟨[]⟩ 1 ⟨false, [Comp.up]⟩
      = { result := budgetMsg 1, count := 1, effects := [] } :=
  (c10_read_counter ["r"] 1 ⟨[]⟩ 1 ⟨false, [Comp.up]⟩).1 (by decide)

lemma createBlobs_stores (g : GitRepo) (files : List (String × String)) :
    (createBlobs g files).1.refs = g.refs ∧ (createBlobs g files).1.commits = g.commits ∧
    (createBlobs g files).1.trees = g.trees ∧
    g.next ≤ (createBlobs g files).1.next := by
  induction files generalizing g with
  | nil => simp [createBlobs]
  | cons f rest ih =>
    obtain ⟨p, c⟩ := f
    have h := ih (create_blob g c).1
    simp [createBlobs, create_blob] at h ⊢
    exact ⟨h.1, h.2.1, h.2.2.1, Nat.le_trans (Nat.le_succ _) h.2.2.2⟩

lemma createBlobs_trace_refs (g : GitRepo) (files : List (String × String)) :
    ∀ s ∈ (createBlobs g files).2.2, s.refs = g.refs := by
  induction files generalizing g with
  | nil => simp [createBlobs]
  | cons f rest ih =>
    obtain ⟨p, c⟩ := f
    intro s hs
    simp [createBlobs] at hs
    rcases hs with h | h
    · subst h; simp [create_blob]
    · have := ih (create_blob g c).1 s h
      simpa [create_blob] using this

lemma createBlobs_keys (g : GitRepo) (files : List (String × String)) :
    (createBlobs g files).2.1.map Prod.fst = files.map Prod.fst := by
  induction files generalizing g with
  | nil => simp [createBlobs]
  | cons f rest ih =>
    obtain ⟨p, c⟩ := f
    simp [createBlobs, ih]

lemma createBlobs_blobs_mono (files : List (String × String)) (b : Nat) (v : String) :
    ∀ g : GitRepo, assocNat g.blobs b = some v → b < g.next →
      assocNat (createBlobs g files).1.blobs b = some v := by
  induction files with
  | nil => intro g h _; simpa [createBlobs]
  | cons f rest ih =>
    obtain ⟨p, c⟩ := f
    intro g h hb
    simp only [createBlobs]
    exact ih (create_blob g c).1
      (by simp [create_blob, assocNat, Nat.ne_of_gt hb, h])
      (by simp [create_blob]; omega)

lemma createBlobs_spec (files : List (String × String)) (p c : String)
    (hnd : (files.map Prod.fst).Nodup) (hm : (p, c) ∈ files) :
    ∀ g : GitRepo, ∃ b, assocStr (createBlobs g files).2.1 p = some b ∧
      assocNat (createBlobs g files).1.blobs b = some c := by
  induction files with
  | nil => cases hm
  | cons f rest ih =>
    obtain ⟨q, d⟩ := f
    rw [List.map_cons, List.nodup_cons] at hnd
    intro g
    rcases List.mem_cons.mp hm with h | h
    · have hq : p = q := congrArg Prod.fst h
      have hd : c = d := congrArg Prod.snd h
      subst hq; subst hd
      refine ⟨g.next, ?_, ?_⟩
      · simp [createBlobs, assocStr, create_blob]
      · simp only [createBlobs]
        exact createBlobs_blobs_mono rest g.next c (create_blob g c).1
          (by simp [create_blob, assocNat]) (by simp [create_blob])
    · have hp : p ∈ rest.map Prod.fst := List.mem_map_of_mem Prod.fst h
      have hpq : p ≠ q := fun hpq => hnd.1 (hpq ▸ hp)
      obtain ⟨b, hb1, hb2⟩ := ih hnd.2 h (create_blob g d).1
      refine ⟨b, ?_, ?_⟩
      · simp only [createBlobs, assocStr]
        rw [if_neg (fun hqp => hpq hqp.symm)]
        exact hb1
      · simpa only [createBlobs] using hb2

lemma assocStr_append_some {α : Type} (l1 l2 : List (String × α)) (p : String) (v : α)
    (h : assocStr l1 p = some v) : assocStr (l1 ++ l2) p = some v := by
  induction l1 with
  | nil => simp [assocStr] at h
  | cons e rest ih =>
    obtain ⟨k, w⟩ := e
    by_cases hk : k = p
    · subst hk
      simp only [assocStr, if_pos rfl] at h ⊢
      exact h
    · simp only [assocStr, if_neg hk] at h ⊢
      exact ih h

lemma assocStr_append_none {α : Type} (l1 l2 : List (String × α)) (p : String)
    (h : assocStr l1 p = none) : assocStr (l1 ++ l2) p = assocStr l2 p := by
  induction l1 with
  | nil => simp
  | cons e rest ih =>
    obtain ⟨k, w⟩ := e
    by_cases hk : k = p
    · subst hk
      simp [assocStr] at h
    · simp only [List.cons_append, assocStr, if_neg hk] at h ⊢
      exact ih h

lemma assocStr_filter_none {α : Type} (items : List (String × Nat)) (base : List (String × α))
    (p : String) (h : assocStr items p = none) :
    assocStr (base.filter (fun e => (assocStr items e.1).isNone)) p = assocStr base p := by
  induction base with
  | nil => simp
  | cons e rest ih =>
    obtain ⟨k, v⟩ := e
    by_cases hk : k = p
    · subst hk
      simp [List.filter_cons, h, assocStr, ih]
    · by_cases hkeep : (assocStr items k).isNone
      · simp [List.filter_cons, hkeep, assocStr, hk, ih]
      · simp [List.filter_cons, hkeep, assocStr, hk, ih]

/-- An unchanged path is inherited by reference from the base tree. -/
lemma mergeEntries_lookup_none (base items : List (String × Nat)) (p : String)
    (h : assocStr items p = none) :
    assocStr (mergeEntries base items) p = assocStr base p := by
  unfold mergeEntries
  rw [assocStr_append_none _ _ _ h]
  exact assocStr_filter_none items base p h

/-- A changed path takes its entry from the new tree items. -/
lemma mergeEntries_lookup_some (base items : List (String × Nat)) (p : String) (b : Nat)
    (h : assocStr items p = some b) :
    assocStr (mergeEntries base items) p = some b :=
  assocStr_append_some _ _ _ _ h

lemma dropLast_append3 {α : Type} (l : List α) (a b c : α) :
    (l ++ [a, b, c]).dropLast = l ++ [a, b] := by
  rw [show l ++ [a, b, c] = (l ++ [a, b]) ++ [c] by simp, List.dropLast_concat]

lemma assocStr_eq_none_of_not_mem {α : Type} (l : List (String × α)) (p : String)
    (h : p ∉ l.map Prod.fst) : assocStr l p = none := by
  induction l with
  | nil => rfl
  | cons e rest ih =>
    obtain ⟨k, v⟩ := e
    rw [List.map_cons, List.mem_cons, not_or] at h
    have hk : ¬ k = p := fun hkp => h.1 hkp.symm
    simp only [assocStr]
    rw [if_neg hk]
    exact ih h.2

/-- C2.  Against a branch at head `H`, `commit_files_atomic` with a
non-empty change map produces exactly one new commit whose parent is
`H`, whose tree layers one blob entry per changed path over `H`'s
commit tree with unchanged sibling paths inherited from the base tree,
and the branch ref is modified exactly once, as the final step: every
intermediate state of the sequence still shows `H` on the ref. -/
theorem c2_commit_files_atomic (g : GitRepo) (branch msg : String)
    (files : List (String × String)) (H : Nat) (HC : GitCommit) (baseT : GitTree)
    (href : assocStr g.refs branch = some H)
    (hcom : assocNat g.commits H = some HC)
    (htree : assocNat g.trees HC.tree = some baseT)
    (hne : files ≠ [])
    (hnd : (files.map Prod.fst).Nodup) :
    ∃ gfin newSha newTreeSha trace items,
      commit_files_atomic g branch files msg = some (gfin, newSha, trace) ∧
      gfin.commits = (newSha, ⟨newTreeSha, [H], msg⟩) :: g.commits ∧
      assocNat gfin.trees newTreeSha = some ⟨mergeEntries baseT.entries items⟩ ∧
      (∀ p, p ∉ files.map Prod.fst →
        assocStr (mergeEntries baseT.entries items) p = assocStr baseT.entries p) ∧
      (∀ p c, (p, c) ∈ files → ∃ b, assocStr (mergeEntries baseT.entries items) p = some b ∧
        assocNat gfin.blobs b = some c) ∧
      (∀ s ∈ trace.dropLast, assocStr s.refs branch = some H) ∧
      gfin.refs = (branch, newSha) :: g.refs ∧
      assocStr gfin.refs branch = some newSha := by
  obtain ⟨hrefs, hcoms, htrees, _⟩ := createBlobs_stores g files
  have h1 : get_ref (createBlobs g files).1 branch = some H := by
    rw [get_ref, hrefs]; exact href
  have h2 : get_commit (createBlobs g files).1 H = some HC := by
    rw [get_commit, hcoms]; exact hcom
  have h3 : get_tree (createBlobs g files).1 HC.tree = some baseT := by
    rw [get_tree, htrees]; exact htree
  have hkey : commit_files_atomic g branch files msg
      = some ({ (createBlobs g files).1 with
            trees := ((createBlobs g files).1.next,
              ⟨mergeEntries baseT.entries (createBlobs g files).2.1⟩)
                :: (createBlobs g files).1.trees,
            commits := ((createBlobs g files).1.next + 1,
              ⟨(createBlobs g files).1.next, [H], msg⟩) :: (createBlobs g files).1.commits,
            refs := (branch, (createBlobs g files).1.next + 1) :: (createBlobs g files).1.refs,
            next := (createBlobs g files).1.next + 2 },
          (createBlobs g files).1.next + 1,
          (createBlobs g files).2.2
            ++ [{ (createBlobs g files).1 with
                  trees := ((createBlobs g files).1.next,
                    ⟨mergeEntries baseT.entries (createBlobs g files).2.1⟩)
                      :: (createBlobs g files).1.trees,
                  next := (createBlobs g files).1.next + 1 },
                { (createBlobs g files).1 with
                  trees := ((createBlobs g files).1.next,
                    ⟨mergeEntries baseT.entries (createBlobs g files).2.1⟩)
                      :: (createBlobs g files).1.trees,
                  commits := ((createBlobs g files).1.next + 1,
                    ⟨(createBlobs g files).1.next, [H], msg⟩)
                      :: (createBlobs g files).1.commits,
                  next := (createBlobs g files).1.next + 2 },
                { (createBlobs g files).1 with
                  trees := ((createBlobs g files).1.next,
                    ⟨mergeEntries baseT.entries (createBlobs g files).2.1⟩)
                      :: (createBlobs g files).1.trees,
                  commits := ((createBlobs g files).1.next + 1,
                    ⟨(createBlobs g files).1.next, [H], msg⟩)
                      :: (createBlobs g files).1.commits,
                  refs := (branch, (createBlobs g files).1.next + 1)
                    :: (createBlobs g files).1.refs,
                  next := (createBlobs g files).1.next + 2 }]) := by
    simp only [commit_files_atomic, h1, h2, create_tree, h3]
    rfl
  refine ⟨_, _, (createBlobs g files).1.next, _, (createBlobs g files).2.1,
    hkey, ?_, ?_, ?_, ?_, ?_, ?_, ?_⟩
  · simp [hcoms]
  · simp [assocNat]
  · intro p hp
    exact mergeEntries_lookup_none _ _ _
      (assocStr_eq_none_of_not_mem _ _ (by rw [createBlobs_keys]; exact hp))
  · intro p c hm
    obtain ⟨b, hb1, hb2⟩ := createBlobs_spec files p c hnd hm g
    exact ⟨b, mergeEntries_lookup_some _ _ _ _ hb1, hb2⟩
  · intro s hs
    rw [dropLast_append3, List.mem_append] at hs
    rcases hs with h | h
    · rw [createBlobs_trace_refs g files s h]; exact href
    · rcases List.mem_cons.mp h with h | h
      · subst h
        simpa [hrefs] using href
      · rw [List.mem_singleton] at h
        subst h
        simpa [hrefs] using href
  · simp [hrefs]
  · simp [assocStr]

theorem c2_commit_files_atomic_witness :
    commit_files_atomic gitRepoEx "main" [("a.txt", "x"), ("b.txt", "y")] "msg" ≠ none := by
  obtain ⟨gfin, newSha, newTreeSha, trace, items, hEq, _⟩ :=
    c2_commit_files_atomic gitRepoEx "main" "msg" [("a.txt", "x"), ("b.txt", "y")]
      1 ⟨0, [], "init"⟩ ⟨[("old.txt", 5)]⟩ (by decide) (by decide) (by decide)
      (by decide) (by decide)
  rw [hEq]
  exact Option.some_ne_none _

lemma pollAux_never_complete (polls : Nat → List CheckRun) (interval timeout : Nat)
    (h : ∀ i, polls i ≠ [] ∧ allComplete (polls i) = false) :
    ∀ fuel elapsed idx f, pollAux polls interval timeout fuel elapsed idx f
      = timeoutResult timeout := by
  intro fuel
  induction fuel with
  | zero => intro e i f; rfl
  | succ n ih =>
    intro e i f
    rw [pollAux]
    by_cases he : timeout ≤ e
    · rw [if_pos he]
    · rw [if_neg he, if_neg (fun hlen => (h i).1 (List.length_eq_zero.mp hlen)),
        if_neg (by simp [(h i).2]), ih]

/-- C6.  A zero-check-run first poll is retried once: when the second
poll has a positive count (and is complete) the result is that poll's
aggregated outcome rather than `no_ci`.  The aggregation over complete
runs yields `failed` (with the offending run names) when some run's
conclusion is not success/neutral/skipped, `passed` when all are
successful, and the loop yields `timeout` when the runs never all
complete. -/
theorem c6_poll_ci_status (polls : Nat → List CheckRun) (timeout interval : Nat) :
    (polls 0 = [] → polls 1 ≠ [] → allComplete (polls 1) = true →
      0 < interval → interval < timeout →
      poll_ci_status polls timeout interval = aggregateRuns (polls 1)) ∧
    (polls 0 ≠ [] → allComplete (polls 0) = true → 0 < timeout →
      poll_ci_status polls timeout interval = aggregateRuns (polls 0)) ∧
    (∀ runs : List CheckRun, ciFailures runs ≠ [] →
      aggregateRuns runs
        = { status := .failed,
            details := String.intercalate "\n"
              ((ciFailures runs).map (fun cr => "- " ++ cr.name ++ ": " ++ cr.conclusion)) }) ∧
    (∀ runs : List CheckRun, ciFailures runs = [] →
      aggregateRuns runs
        = { status := .passed,
            details := "All " ++ toString runs.length ++ " checks passed" }) ∧
    ((∀ i, polls i ≠ [] ∧ allComplete (polls i) = false) →
      poll_ci_status polls timeout interval = timeoutResult timeout) := by
  refine ⟨?_, ?_, ?_, ?_, ?_⟩
  · intro h0 h1 hac hi hit
    obtain ⟨t, rfl⟩ : ∃ t, timeout = t + 1 := ⟨timeout - 1, by omega⟩
    rw [poll_ci_status, pollAux, if_neg (by omega : ¬ t + 1 ≤ 0), h0]
    simp only [List.length_nil, if_pos rfl, if_true, Nat.zero_add]
    rw [pollAux, if_neg (by omega : ¬ t + 1 ≤ interval),
      if_neg (fun hlen => h1 (List.length_eq_zero.mp hlen)), if_pos hac]
  · intro h0 hac ht
    rw [poll_ci_status, pollAux, if_neg (by omega : ¬ timeout ≤ 0),
      if_neg (fun hlen => h0 (List.length_eq_zero.mp hlen)), if_pos hac]
  · intro runs hf
    rw [aggregateRuns, if_neg (by simpa [List.isEmpty_iff] using hf)]
  · intro runs hf
    rw [aggregateRuns, if_pos (by simp [List.isEmpty_iff, hf])]
  · intro h
    exact pollAux_never_complete polls interval timeout h (timeout + 1) 0 0 true

theorem c6_poll_ci_status_witness :
    poll_ci_status pollsEx 300 15 = aggregateRuns (pollsEx 1) ∧
    poll_ci_status pollsEx 300 15 ≠ noCIResult := by
  have h := (c6_poll_ci_status pollsEx 300 15).1 (by decide) (by decide) (by decide)
    (by decide) (by decide)
  exact ⟨h, by rw [h]; decide⟩

/-- C3 — counterexample.  When generation produces no usable changes
across all rounds, `generate_fix` returns `success=True` with an empty
ChangeSet and no commit — not `success=False` as the claim states. -/
theorem c3_counterexample :
    (∀ r ∈ noChangeScriptEx.rounds, r.gen = .ok [] (0, 0)) ∧
    generateFix ["r"] ⟨[]⟩ 3 noChangeScriptEx
      = { success := true, changed_files := [], rounds_taken := 3,
          validation_passed := false, commit_sha := none, error := none,
          commitCalls := [] } := by
  constructor
  · decide
  · decide

/-- C3 — amended.  `success=False` exactly when an exception escapes a
step of the session (token fetch, clone, a commit call, modelled by
`generateFixE` returning `.error`), and then the `error` field carries
the underlying detail string unmodified; in every other case —
including no usable changes across all rounds, and round exhaustion
with a non-empty ChangeSet — the result has `success=True`. -/
theorem c3_success_iff (root : Loc) (fs0 : FS) (mr : Nat) (s : FixScript) :
    ((generateFix root fs0 mr s).success = false ↔
      ∃ e, generateFixE root fs0 mr s = .error e) ∧
    (∀ e, generateFixE root fs0 mr s = .error e →
      (generateFix root fs0 mr s).error = some e) ∧
    (∀ st n, generateFixE root fs0 mr s = .ok (st, n) →
      (generateFix root fs0 mr s).success = true ∧
      (generateFix root fs0 mr s).changed_files = st.best ∧
      (generateFix root fs0 mr s).error = none) := by
  rcases h : generateFixE root fs0 mr s with e | p
  · simp [generateFix, h]
  · obtain ⟨st, n⟩ := p
    simp [generateFix, h]

theorem c3_success_iff_witness :
    (generateFix ["r"] ⟨[]⟩ 1 commitFailScriptEx).success = false ∧
    (generateFix ["r"] ⟨[]⟩ 1 commitFailScriptEx).error = some "API error 502" :=
  ⟨(c3_success_iff ["r"] ⟨[]⟩ 1 commitFailScriptEx).1.mpr ⟨"API error 502", by decide⟩,
    (c3_success_iff ["r"] ⟨[]⟩ 1 commitFailScriptEx).2.1 "API error 502" (by decide)⟩

/-- C5.  After a round's changes are committed and CI polled: a status
of `passed` or `no_ci` terminates the loop with
`validation_passed=True`; `timeout` terminates it with
`validation_passed=False` (still a successful outcome); `failed`
produces ci feedback and continues to the next round with the commit
still in place — the commit sha and the recorded commit call are
retained, nothing rolls the commit back. -/
theorem c5_ci_routing (root : Loc) (r : RoundScript) (n : Nat) (st : LoopState)
    (w : List (PathArg × String)) (u : Nat × Nat) (sha : Nat)
    (hg : r.gen = .ok w u)
    (hcur : (collectChanges root (applyWrites root (st.fs, st.changed) w).1
      (applyWrites root (st.fs, st.changed) w).2).isEmpty = false)
    (hl : r.lint.passed = true)
    (hr : r.review.passed = true)
    (hc : r.commitRes = .ok sha) :
    ((r.ci.status = .passed ∨ r.ci.status = .no_ci) →
      (roundStep root r n st).isDone = true ∧
      ((roundStep root r n st).state?.map (fun s => s.validationPassed)) = some true ∧
      ((roundStep root r n st).state?.map (fun s => s.commitSha)) = some (some sha)) ∧
    (r.ci.status = .timeout →
      (roundStep root r n st).isDone = true ∧
      ((roundStep root r n st).state?.map (fun s => s.validationPassed)) = some false ∧
      ((roundStep root r n st).state?.map (fun s => s.commitSha)) = some (some sha)) ∧
    (r.ci.status = .failed →
      (roundStep root r n st).isDone = false ∧
      ((roundStep root r n st).state?.map (fun s => s.feedback))
        = some (some (.ci r.ci.details)) ∧
      ((roundStep root r n st).state?.map (fun s => s.commitSha)) = some (some sha) ∧
      ((roundStep root r n st).state?.map (fun s => s.commitCalls))
        = some (st.commitCalls ++ [collectChanges root
            (applyWrites root (st.fs, st.changed) w).1
            (applyWrites root (st.fs, st.changed) w).2])) := by
  refine ⟨?_, ?_, ?_⟩
  · intro hci
    rcases hci with hci | hci <;>
      simp [roundStep, hg, hcur, hl, hr, hc, hci, StepRes.state?, StepRes.isDone]
  · intro hci
    simp [roundStep, hg, hcur, hl, hr, hc, hci, StepRes.state?, StepRes.isDone]
  · intro hci
    simp [roundStep, hg, hcur, hl, hr, hc, hci, StepRes.state?, StepRes.isDone]

theorem c5_ci_routing_witness :
    (roundStep ["r"] c5RoundEx 1 (initState ⟨[]⟩)).isDone = false ∧
    ((roundStep ["r"] c5RoundEx 1 (initState ⟨[]⟩)).state?.map (fun s => s.feedback))
      = some (some (.ci "- build: failure")) ∧
    ((roundStep ["r"] c5RoundEx 1 (initState ⟨[]⟩)).state?.map (fun s => s.commitSha))
      = some (some 11) := by
  have h := (c5_ci_routing ["r"] c5RoundEx 1 (initState ⟨[]⟩) [(sandboxPathEx, "y")]
    (0, 0) 11 rfl (by decide) rfl rfl rfl).2.2 rfl
  exact ⟨h.1, h.2.1, h.2.2.1⟩

/-- C8.  When the detected linter's binary is absent on the host,
`_run_linter` reports `passed=True, skipped=True` rather than a
failing result, and the loop then proceeds to the self-review gate for
that round: a round with such a lint result never advances with lint
feedback, and when self-review fails the feedback is the self-review
one. -/
theorem c8_missing_linter (which : String → Bool) (proc : ProcOutcome) (name : String)
    (cmd : List String) (root : Loc) (r : RoundScript) (n : Nat) (st : LoopState)
    (w : List (PathArg × String)) (u : Nat × Nat)
    (hwhich : which (cmd.headD "") = false)
    (hlint : r.lint = run_linter which proc name cmd)
    (hg : r.gen = .ok w u)
    (hcur : (collectChanges root (applyWrites root (st.fs, st.changed) w).1
      (applyWrites root (st.fs, st.changed) w).2).isEmpty = false) :
    r.lint.passed = true ∧ r.lint.skipped = true ∧
    (∀ st' out, roundStep root r n st = .next st' → st'.feedback ≠ some (.lint out)) ∧
    (r.review.passed = false →
      ((roundStep root r n st).state?.map (fun s => s.feedback))
        = some (some (.selfReview r.review.issues))) := by
  have hpl : r.lint.passed = true := by
    rw [hlint]; unfold run_linter; rw [hwhich]; rfl
  have hsk : r.lint.skipped = true := by
    rw [hlint]; unfold run_linter; rw [hwhich]; rfl
  refine ⟨hpl, hsk, ?_, ?_⟩
  · intro st' out hstep
    by_cases hrev : r.review.passed = false
    · simp [roundStep, hg, hcur, hpl, hrev] at hstep
      subst hstep
      simp
    · rcases hcr : r.commitRes with e | sha
      · simp [roundStep, hg, hcur, hpl, hrev, hcr] at hstep
      · by_cases hci : r.ci.status = .failed
        · simp [roundStep, hg, hcur, hpl, hrev, hcr, hci] at hstep
          subst hstep
          simp
        · simp [roundStep, hg, hcur, hpl, hrev, hcr, hci] at hstep
  · intro hrev
    simp [roundStep, hg, hcur, hpl, hrev, StepRes.state?]

theorem c8_missing_linter_witness :
    c8RoundEx.lint.passed = true ∧ c8RoundEx.lint.skipped = true ∧
    ((roundStep ["r"] c8RoundEx 1 (initState ⟨[]⟩)).state?.map (fun s => s.feedback))
      = some (some (.selfReview ["issue 1"])) := by
  have h := c8_missing_linter whichNoneEx (.finished 0 "" "") "ruff" ["ruff", "check", "."]
    ["r"] c8RoundEx 1 (initState ⟨[]⟩) [(sandboxPathEx, "z")] (0, 0)
    rfl rfl rfl (by decide)
  exact ⟨h.1, h.2.1, h.2.2.2 rfl⟩

/-- C4.  With a round ceiling of 3 and every round's lint gate
failing, the loop exhausts after round 3 with
`validation_passed=False`; the returned ChangeSet is round 3's (most
recent) collection, and exactly one commit is issued — in the
finalization step, carrying that ChangeSet — because no commit landed
via the CI gate. -/
theorem c4_lint_exhaustion (root : Loc) (fs0 : FS) (s : FixScript)
    (r1 r2 r3 : RoundScript) (w1 w2 w3 : List (PathArg × String))
    (u1 u2 u3 : Nat × Nat) (sha : Nat)
    (hrounds : s.rounds = [r1, r2, r3])
    (htoken : s.token = .ok ()) (hclone : s.clone = .ok ())
    (hg1 : r1.gen = .ok w1 u1) (hg2 : r2.gen = .ok w2 u2) (hg3 : r3.gen = .ok w3 u3)
    (hl1 : r1.lint.passed = false) (hl2 : r2.lint.passed = false)
    (hl3 : r3.lint.passed = false)
    (hfc : s.finalCommit = .ok sha)
    (hc1 : (collectChanges root (applyWrites root (fs0, []) w1).1
      (applyWrites root (fs0, []) w1).2).isEmpty = false)
    (hc2 : (collectChanges root (applyWrites root (applyWrites root (fs0, []) w1) w2).1
      (applyWrites root (applyWrites root (fs0, []) w1) w2).2).isEmpty = false)
    (hc3 : (collectChanges root
      (applyWrites root (applyWrites root (applyWrites root (fs0, []) w1) w2) w3).1
      (applyWrites root (applyWrites root (applyWrites root (fs0, []) w1) w2) w3).2).isEmpty
        = false) :
    (generateFix root fs0 3 s).success = true ∧
    (generateFix root fs0 3 s).rounds_taken = 3 ∧
    (generateFix root fs0 3 s).validation_passed = false ∧
    (generateFix root fs0 3 s).changed_files = collectChanges root
      (applyWrites root (applyWrites root (applyWrites root (fs0, []) w1) w2) w3).1
      (applyWrites root (applyWrites root (applyWrites root (fs0, []) w1) w2) w3).2 ∧
    (generateFix root fs0 3 s).commit_sha = some sha ∧
    (generateFix root fs0 3 s).commitCalls = [(generateFix root fs0 3 s).changed_files] ∧
    (collectChanges root (applyWrites root (fs0, []) w1).1 (applyWrites root (fs0, []) w1).2
        ≠ (generateFix root fs0 3 s).changed_files →
      (generateFix root fs0 3 s).changed_files
        ≠ collectChanges root (applyWrites root (fs0, []) w1).1
            (applyWrites root (fs0, []) w1).2) := by
  have htake : s.rounds.take 3 = [r1, r2, r3] := by rw [hrounds]; rfl
  refine ⟨?_, ?_, ?_, ?_, ?_, ?_, fun hne heq => hne heq.symm⟩ <;>
    simp [generateFix, generateFixE, htoken, hclone, htake, runRounds, roundStep,
      initState, hg1, hg2, hg3, hc1, hc2, hc3, hl1, hl2, hl3, hfc]

theorem c4_lint_exhaustion_witness :
    (generateFix ["r"] ⟨[]⟩ 3 c4ScriptEx).changed_files = [(sandboxPathEx, "v3")] ∧
    (generateFix ["r"] ⟨[]⟩ 3 c4ScriptEx).changed_files
      ≠ collectChanges ["r"] (applyWrites ["r"] (⟨[]⟩, []) [(sandboxPathEx, "v1")]).1
          (applyWrites ["r"] (⟨[]⟩, []) [(sandboxPathEx, "v1")]).2 ∧
    (generateFix ["r"] ⟨[]⟩ 3 c4ScriptEx).validation_passed = false ∧
    (generateFix ["r"] ⟨[]⟩ 3 c4ScriptEx).rounds_taken = 3 ∧
    (generateFix ["r"] ⟨[]⟩ 3 c4ScriptEx).commit_sha = some 42 := by
  have h := c4_lint_exhaustion ["r"] ⟨[]⟩ c4ScriptEx
    (c4Round "v1") (c4Round "v2") (c4Round "v3")
    [(sandboxPathEx, "v1")] [(sandboxPathEx, "v2")] [(sandboxPathEx, "v3")]
    (0, 0) (0, 0) (0, 0) 42 rfl rfl rfl rfl rfl rfl rfl rfl rfl rfl
    (by decide) (by decide) (by decide)
  refine ⟨?_, ?_, h.2.2.1, h.2.1, h.2.2.2.2.1⟩
  · rw [h.2.2.2.1]; decide
  · rw [h.2.2.2.1]; decide

lemma mem_insertChanged (p q : PathArg) (ch : List PathArg) :
    q ∈ insertChanged p ch ↔ q = p ∨ q ∈ ch := by
  unfold insertChanged
  by_cases hp : p ∈ ch
  · rw [if_pos hp]
    exact ⟨Or.inr, fun h => h.elim (fun he => he ▸ hp) id⟩
  · rw [if_neg hp]
    exact List.mem_cons

lemma write_file_changed (root : Loc) (fs : FS) (ch : List PathArg) (p : PathArg)
    (content : String) :
    (∀ q ∈ ch, q ∈ (write_file root fs ch p content).changed) ∧
    (∀ q ∈ (write_file root fs ch p content).changed, q = p ∨ q ∈ ch) := by
  rcases h : resolveUnder root p with _ | loc
  · simp only [write_file, h]
    exact ⟨fun q hq => hq, fun q hq => Or.inr hq⟩
  · simp only [write_file, h]
    exact ⟨fun q hq => (mem_insertChanged p q ch).mpr (Or.inr hq),
      fun q hq => (mem_insertChanged p q ch).mp hq⟩

lemma applyWrites_changed (root : Loc) (ws : List (PathArg × String)) :
    ∀ st : FS × List PathArg,
      (∀ q ∈ st.2, q ∈ (applyWrites root st ws).2) ∧
      (∀ q ∈ (applyWrites root st ws).2, q ∈ st.2 ∨ q ∈ ws.map Prod.fst) := by
  induction ws with
  | nil => intro st; simp [applyWrites]
  | cons w rest ih =>
    intro st
    obtain ⟨p, c⟩ := w
    simp only [applyWrites]
    obtain ⟨ihm, ihs⟩ :=
      ih ((write_file root st.1 st.2 p c).fs, (write_file root st.1 st.2 p c).changed)
    obtain ⟨wm, ws'⟩ := write_file_changed root st.1 st.2 p c
    constructor
    · intro q hq
      exact ihm q (wm q hq)
    · intro q hq
      rcases ihs q hq with h | h
      · rcases ws' q h with h' | h'
        · exact Or.inr (by simp [h'])
        · exact Or.inl h'
      · exact Or.inr (by
          rw [List.map_cons, List.mem_cons]
          exact Or.inr (by simpa using h))

/-- Every state a round step produces carries the changed set obtained
by applying the round's writes — the set is never cleared. -/
lemma roundStep_state_changed (root : Loc) (r : RoundScript) (n : Nat) (st : LoopState) :
    ∀ st1, (roundStep root r n st).state? = some st1 →
      st1.changed = (applyWrites root (st.fs, st.changed) (writesOf r.gen)).2 := by
  intro st1 h
  rcases hg : r.gen with ⟨ws, d⟩ | ⟨ws, u⟩
  · simp only [roundStep, hg, writesOf] at h ⊢
    simp only [StepRes.state?, Option.some.injEq] at h
    subst h
    rfl
  · simp only [roundStep, hg, writesOf] at h ⊢
    split at h <;> try split at h <;> try split at h <;> try split at h <;> try split at h
    all_goals
      simp only [StepRes.state?, Option.some.injEq] at h
      first
        | exact Option.noConfusion h
        | (subst h; rfl)

lemma runRounds_changed (root : Loc) (rounds : List RoundScript) :
    ∀ n st st' n', runRounds root rounds n st = .ok (st', n') →
      (∀ q ∈ st.changed, q ∈ st'.changed) ∧
      (∀ q ∈ st'.changed, q ∈ st.changed ∨ q ∈ namedPaths rounds) := by
  induction rounds with
  | nil =>
    intro n st st' n' h
    simp only [runRounds, Except.ok.injEq, Prod.mk.injEq] at h
    rw [← h.1]
    exact ⟨fun q hq => hq, fun q hq => Or.inl hq⟩
  | cons r rs ih =>
    intro n st st' n' h
    simp only [runRounds] at h
    rcases hstep : roundStep root r (n + 1) st with s1 | s1 | e <;> rw [hstep] at h
    · have hch := roundStep_state_changed root r (n + 1) st s1 (by rw [hstep]; rfl)
      obtain ⟨m1, s1s⟩ := ih (n + 1) s1 st' n' h
      obtain ⟨am, as'⟩ := applyWrites_changed root (writesOf r.gen) (st.fs, st.changed)
      constructor
      · intro q hq
        exact m1 q (by rw [hch]; exact am q hq)
      · intro q hq
        rcases s1s q hq with hq' | hq'
        · rw [hch] at hq'
          rcases as' q hq' with h' | h'
          · exact Or.inl h'
          · refine Or.inr ?_
            unfold namedPaths
            rw [List.flatMap_cons]
            exact List.mem_append_left _ h'
        · refine Or.inr ?_
          unfold namedPaths
          rw [List.flatMap_cons]
          exact List.mem_append_right _ hq'
    · simp only [Except.ok.injEq, Prod.mk.injEq] at h
      have hch := roundStep_state_changed root r (n + 1) st s1 (by rw [hstep]; rfl)
      obtain ⟨am, as'⟩ := applyWrites_changed root (writesOf r.gen) (st.fs, st.changed)
      rw [← h.1]
      constructor
      · intro q hq
        rw [hch]
        exact am q hq
      · intro q hq
        rw [hch] at hq
        rcases as' q hq with h' | h'
        · exact Or.inl h'
        · refine Or.inr ?_
          unfold namedPaths
          rw [List.flatMap_cons]
          exact List.mem_append_left _ h'
    · cases h

/-- C9.  (i) The ChangeSet collected at any point maps a path to a
content exactly when some write call named the path (it is in the
changed set) and the file currently on disk at its resolved location
has that content; (ii) a later write to a path replaces the on-disk
content (last write wins); (iii) across any run of rounds, the
changed-paths set is never cleared — every path in it at the start is
still in it at the end — and a path is in it only if it was there
initially or some round's write tool call named it. -/
theorem c9_changeset (root : Loc) :
    (∀ fs ch p c, ((p, c) ∈ collectChanges root fs ch ↔
      p ∈ ch ∧ fs.lookup (resolveLoc root p) = some (FNode.file c))) ∧
    (∀ fs ch p content loc, resolveUnder root p = some loc →
      (write_file root fs ch p content).fs.lookup loc = some (FNode.file content)) ∧
    (∀ rounds n st st' n', runRounds root rounds n st = .ok (st', n') →
      (∀ q ∈ st.changed, q ∈ st'.changed) ∧
      (∀ q ∈ st'.changed, q ∈ st.changed ∨ q ∈ namedPaths rounds)) := by
  refine ⟨?_, ?_, fun rounds => runRounds_changed root rounds⟩
  · intro fs ch p c
    unfold collectChanges
    rw [List.mem_filterMap]
    constructor
    · rintro ⟨a, ha, hfa⟩
      rcases hl : fs.lookup (resolveLoc root a) with _ | nd
      · rw [hl] at hfa
        simp at hfa
      · cases nd with
        | dir =>
          rw [hl] at hfa
          simp at hfa
        | file c' =>
          rw [hl] at hfa
          simp only [Option.some.injEq, Prod.mk.injEq] at hfa
          obtain ⟨h1, h2⟩ := hfa
          subst h1
          subst h2
          exact ⟨ha, hl⟩
    · rintro ⟨hp, hl⟩
      exact ⟨p, hp, by rw [hl]⟩
  · intro fs ch p content loc h
    simp only [write_file, h]
    simp [FS.setFile, FS.lookup, assocLoc]

theorem c9_changeset_witness :
    ((sandboxPathEx, "v1") ∈ collectChanges ["r"]
      (write_file ["r"] ⟨[]⟩ [] sandboxPathEx "v1").fs [sandboxPathEx]) ∧
    (write_file ["r"] ⟨[]⟩ [] sandboxPathEx "v1").fs.lookup
      (resolveLoc ["r"] sandboxPathEx) = some (FNode.file "v1") ∧
    (sandboxPathEx ∈ (initState ⟨[]⟩).changed ∨ sandboxPathEx ∈ namedPaths [writeRoundEx]) := by
  refine ⟨?_, ?_, ?_⟩
  · exact ((c9_changeset ["r"]).1 _ _ _ _).mpr ⟨by decide, by decide⟩
  · exact (c9_changeset ["r"]).2.1 ⟨[]⟩ [] sandboxPathEx "v1"
      (resolveLoc ["r"] sandboxPathEx) (by decide)
  · exact ((c9_changeset ["r"]).2.2 [writeRoundEx] 0 (initState ⟨[]⟩) c9StEx 1
      (by decide)).2 sandboxPathEx (by decide)

end BugBot
